import Mathlib

/-!
Verification development for the `terminator` PTY wrapper (`terminator.c`,
`my_assert.h`).

The development shallowly embeds:

* the per-cycle body of `redirection_thread_fn` (the byte pump) as a state
  machine `pumpCycle` over `PumpState`, driven by a per-cycle oracle
  `CycleInput` describing what `poll`, `read`, `write`, `fsync` and the
  terminal predicates return on that cycle;
* the surrounding `while` loop as `runPump`;
* the two-thread composition sharing the `all_done` flag as `sessionStep` /
  `sessionRun`;
* the setup and exit-status logic of `main` as `mainRun`.

C `size_t` values (`n_read`, `n_written`, `buffer_length`, `buffer_offset`)
are modelled as `Nat` with explicit conversion from the signed `ssize_t`
return values through `sizeT` (reduction modulo `2 ^ 64`), so that the
unsigned-comparison behaviour of `ASSERT_NONNEG` on a `size_t` operand is
reproduced exactly.  A fatal assertion (the process printing a diagnostic
and exiting with failure) is modelled as the `none` outcome.
-/

namespace Terminator

/-- `BUFSIZ` on glibc, the value of the `BUFFER_SIZE` macro. -/
def BUFFER_SIZE : Nat := 8192

/-- One more than the largest `size_t` value (64-bit platform). -/
def SIZE_MOD : Nat := 2 ^ 64

/-- `EXIT_FAILURE` from `stdlib.h`. -/
def EXIT_FAILURE : Nat := 1

/-- The end-of-transmission byte `eot_char = 0x04` written on source EOF. -/
def EOT_CHAR : Nat := 4

/-- Conversion of a C `ssize_t` value to `size_t`: reduction modulo `2^64`.
This is the conversion applied when `read`/`write` results are stored into
the `size_t` variables `n_read` / `n_written`. -/
def sizeT (x : Int) : Nat := (x % (SIZE_MOD : Int)).toNat

/-- `struct redirection_info`: configuration of one pump thread. -/
structure RedirectionInfo where
  id : Nat
  in_fd : Int
  out_fd : Int
  send_eot : Bool
  end_all : Bool
deriving Repr, DecidableEq

/-- `reader_info = { 0, STDIN_FILENO, fdm, 1, 0 }` from `main`. -/
def reader_info (fdm : Int) : RedirectionInfo :=
  { id := 0, in_fd := 0, out_fd := fdm, send_eot := true, end_all := false }

/-- `writer_info = { 1, fdm, STDOUT_FILENO, 0, 1 }` from `main`. -/
def writer_info (fdm : Int) : RedirectionInfo :=
  { id := 1, in_fd := fdm, out_fd := 1, send_eot := false, end_all := true }

/-- The thread-local state of `redirection_thread_fn`: the `keep_going` and
`found_eof` flags, the two polled descriptors (`poll_fds[0].fd`,
`poll_fds[1].fd`, set to `-1` when retired), and the transfer buffer with its
`size_t` length and offset.  `buffer` holds the bytes stored by the most
recent successful `read`. -/
structure PumpState where
  keep_going : Bool
  found_eof : Bool
  src_fd : Int
  dst_fd : Int
  buffer : List Nat
  buffer_length : Nat
  buffer_offset : Nat
deriving Repr, DecidableEq

/-- Initial pump state: `keep_going = 1`, `found_eof = 0`, descriptors from
the `redirection_info`, empty buffer. -/
def initPump (info : RedirectionInfo) : PumpState :=
  { keep_going := true, found_eof := false, src_fd := info.in_fd,
    dst_fd := info.out_fd, buffer := [], buffer_length := 0, buffer_offset := 0 }

/-- The environment's behaviour during one cycle of the pump loop: the value
of the shared flag when the loop condition is evaluated, whether `poll`
fails, the revent bits `poll` reports for the two descriptors, what `read`
returns if called (`read_err` for a negative return, otherwise the bytes
placed in the buffer), what `write` returns if called (`write_err` for a
negative return, otherwise the kernel accepts up to `write_accept` bytes),
whether the EOT-branch `write` fails, whether `fsync` fails, and whether the
destination satisfies `isastream(...) || isatty(...)`. -/
structure CycleInput where
  all_done : Bool
  poll_err : Bool
  src_pollin : Bool
  src_pollhup : Bool
  dst_pollout : Bool
  dst_pollhup : Bool
  read_err : Bool
  read_bytes : List Nat
  write_err : Bool
  write_accept : Nat
  eot_write_err : Bool
  fsync_err : Bool
  dst_is_terminal : Bool
deriving Repr, DecidableEq

/-- Observable I/O performed by a cycle: each `read` call with its return
value and the bytes it stored, each buffer `write` call with its return
value and the bytes it transferred, and each EOT-branch `write` with the
bytes it transferred (`[EOT_CHAR]` or `[]`). -/
inductive IOEvent where
  | readCall (ret : Int) (bytes : List Nat)
  | writeCall (ret : Int) (bytes : List Nat)
  | eotWrite (bytes : List Nat)
deriving Repr, DecidableEq

/-- Lines 188-194: on `POLLHUP` without `POLLIN` on the source, retire the
source descriptor and record EOF.  `srcHup`/`srcIn` are the masked revent
bits (a retired descriptor reports no events). -/
def srcHangupStep (s : PumpState) (srcHup srcIn : Bool) : PumpState :=
  if srcHup && !srcIn then { s with src_fd := -1, found_eof := true } else s

/-- Lines 196-204: on `POLLHUP` on the destination, retire it, stop the
loop, and discard the buffered data. -/
def dstHangupStep (s : PumpState) (dstHup : Bool) : PumpState :=
  if dstHup then
    { s with dst_fd := -1, keep_going := false, buffer_offset := 0,
             buffer_length := 0 }
  else s

/-- Line 206: the guard of the fill branch. -/
def fillGuard (s : PumpState) (srcIn : Bool) : Bool :=
  s.keep_going && !s.found_eof && srcIn && (s.buffer_length == 0)

/-- Lines 206-223, state part: read up to `BUFFER_SIZE` bytes.  The result
is stored in the `size_t` variable `n_read`, so `ASSERT_NONNEG` compares an
unsigned value and can never fail: a negative `read` return is converted by
`sizeT` and becomes the buffer length.  A zero-length read retires the
source and records EOF. -/
def fillState (s : PumpState) (srcIn : Bool) (c : CycleInput) : PumpState :=
  if fillGuard s srcIn then
    let chunk := c.read_bytes.take BUFFER_SIZE
    let readRet : Int := if c.read_err then -1 else (chunk.length : Int)
    let n_read := sizeT readRet
    let s1 := { s with buffer := if c.read_err then s.buffer else chunk,
                       buffer_offset := 0, buffer_length := n_read }
    if n_read == 0 then { s1 with src_fd := -1, found_eof := true } else s1
  else s

/-- Lines 206-223, event part: the `read` call performed by the fill branch,
if any. -/
def fillEvents (s : PumpState) (srcIn : Bool) (c : CycleInput) : List IOEvent :=
  if fillGuard s srcIn then
    let chunk := c.read_bytes.take BUFFER_SIZE
    let readRet : Int := if c.read_err then -1 else (chunk.length : Int)
    [IOEvent.readCall readRet (if c.read_err then [] else chunk)]
  else []

/-- Lines 225-265, event part: the `write` calls performed by the drain
branch.  A failed `write` transfers no bytes; a failed EOT-branch `write`
is fatal before any byte is transferred. -/
def drainEvents (info : RedirectionInfo) (s : PumpState) (dstOut : Bool)
    (c : CycleInput) : List IOEvent :=
  if dstOut then
    if 0 < s.buffer_length then
      let writeRet : Int :=
        if c.write_err then -1 else ((min c.write_accept s.buffer_length : Nat) : Int)
      let n_written := sizeT writeRet
      [IOEvent.writeCall writeRet
        (if c.write_err then [] else (s.buffer.drop s.buffer_offset).take n_written)]
    else if s.found_eof then
      if c.eot_write_err then []
      else if info.send_eot && c.dst_is_terminal then [IOEvent.eotWrite [EOT_CHAR]]
      else [IOEvent.eotWrite []]
    else []
  else []

/-- Lines 225-265, state part.  In the buffered branch the `write` result is
stored in the `size_t` variable `n_written`, so `ASSERT_NONNEG` again never
fails and the `size_t` arithmetic on `buffer_offset`/`buffer_length` wraps
modulo `2^64`; `ASSERT_ZERO(fsync(...))` can abort.  In the EOF branch the
`write` return is checked as a signed value, so a failure there is fatal;
on success `keep_going` is cleared. -/
def drainResult (_info : RedirectionInfo) (s : PumpState) (dstOut : Bool)
    (c : CycleInput) : Option PumpState :=
  if dstOut then
    if 0 < s.buffer_length then
      let writeRet : Int :=
        if c.write_err then -1 else ((min c.write_accept s.buffer_length : Nat) : Int)
      let n_written := sizeT writeRet
      if c.fsync_err then none
      else
        some { s with buffer_offset := (s.buffer_offset + n_written) % SIZE_MOD,
                      buffer_length := (s.buffer_length + (SIZE_MOD - n_written)) % SIZE_MOD }
    else if s.found_eof then
      if c.eot_write_err then none
      else if c.fsync_err then none
      else some { s with keep_going := false }
    else some s
  else some s

/-- One full iteration of the body of the `while` loop (lines 186-265):
`poll` (fatal on failure), the two hangup checks, the fill branch, then the
drain branch.  The revent masks are computed from the descriptors that were
passed to `poll` at the top of the iteration; a retired descriptor (`-1`)
reports no events. -/
def pumpCycle (info : RedirectionInfo) (s : PumpState) (c : CycleInput) :
    List IOEvent × Option PumpState :=
  if c.poll_err then ([], none)
  else
    let srcIn := decide (0 ≤ s.src_fd) && c.src_pollin
    let srcHup := decide (0 ≤ s.src_fd) && c.src_pollhup
    let dstOut := decide (0 ≤ s.dst_fd) && c.dst_pollout
    let dstHup := decide (0 ≤ s.dst_fd) && c.dst_pollhup
    let s1 := srcHangupStep s srcHup srcIn
    let s2 := dstHangupStep s1 dstHup
    let s3 := fillState s2 srcIn c
    (fillEvents s2 srcIn c ++ drainEvents info s3 dstOut c,
     drainResult info s3 dstOut c)

/-- The loop condition `(keep_going &= !all_done) || buffer_length` also
updates `keep_going`; this is the state after one evaluation. -/
def condStep (s : PumpState) (allDone : Bool) : PumpState :=
  { s with keep_going := s.keep_going && !allDone }

/-- The truth value of the loop condition
`(keep_going &= !all_done) || buffer_length`. -/
def loopContinue (s : PumpState) (allDone : Bool) : Bool :=
  (s.keep_going && !allDone) || !(s.buffer_length == 0)

/-- The pump loop: evaluate the condition, then run one cycle, for as long
as the supplied schedule of cycle inputs lasts.  Returns the accumulated
I/O events and `some` final state, or the events up to a fatal assertion
(`none`). -/
def runPump (info : RedirectionInfo) :
    List CycleInput → PumpState → List IOEvent × Option PumpState
  | [], s => ([], some s)
  | c :: cs, s =>
    if loopContinue s c.all_done then
      let step := pumpCycle info (condStep s c.all_done) c
      match step.2 with
      | none => (step.1, none)
      | some s2 => (step.1 ++ (runPump info cs s2).1, (runPump info cs s2).2)
    else ([], some (condStep s c.all_done))

/-- Bytes obtained from the source by the `read` calls among some events,
in order. -/
def readBytesOf : List IOEvent → List Nat
  | [] => []
  | IOEvent.readCall _ bs :: es => bs ++ readBytesOf es
  | IOEvent.writeCall _ _ :: es => readBytesOf es
  | IOEvent.eotWrite _ :: es => readBytesOf es

/-- Bytes delivered to the destination by the buffer `write` calls among
some events, in order (EOT-branch writes are counted separately). -/
def writtenBytesOf : List IOEvent → List Nat
  | [] => []
  | IOEvent.readCall _ _ :: es => writtenBytesOf es
  | IOEvent.writeCall _ bs :: es => bs ++ writtenBytesOf es
  | IOEvent.eotWrite _ :: es => writtenBytesOf es

/-- Number of end-of-transmission bytes delivered by EOT-branch writes. -/
def eotBytesOf : List IOEvent → Nat
  | [] => 0
  | IOEvent.readCall _ _ :: es => eotBytesOf es
  | IOEvent.writeCall _ _ :: es => eotBytesOf es
  | IOEvent.eotWrite bs :: es => bs.length + eotBytesOf es

/-- The payloads of the EOT-branch writes among some events. -/
def eotPayloadsOf : List IOEvent → List (List Nat)
  | [] => []
  | IOEvent.readCall _ _ :: es => eotPayloadsOf es
  | IOEvent.writeCall _ _ :: es => eotPayloadsOf es
  | IOEvent.eotWrite bs :: es => bs :: eotPayloadsOf es

/-- Number of `read` calls among some events. -/
def readCallsOf : List IOEvent → Nat
  | [] => 0
  | IOEvent.readCall _ _ :: es => 1 + readCallsOf es
  | IOEvent.writeCall _ _ :: es => readCallsOf es
  | IOEvent.eotWrite _ :: es => readCallsOf es

/-- The buffered bytes still to be written: the slice of the buffer starting
at `buffer_offset` of length `buffer_length`. -/
def pending (s : PumpState) : List Nat :=
  (s.buffer.drop s.buffer_offset).take s.buffer_length

/-- A cycle input on which none of the polled operations fails. -/
def GoodInput (c : CycleInput) : Prop :=
  c.poll_err = false ∧ c.read_err = false ∧ c.write_err = false ∧
  c.eot_write_err = false ∧ c.fsync_err = false

/-- Structural well-formedness of the transfer buffer: the slice
`[buffer_offset, buffer_offset + buffer_length)` lies inside the stored
chunk, which in turn fits in the `BUFFER_SIZE` array. -/
def Inv (s : PumpState) : Prop :=
  s.buffer_offset + s.buffer_length ≤ s.buffer.length ∧
  s.buffer.length ≤ BUFFER_SIZE

/-! ### Arithmetic helpers for the `size_t` model -/

theorem sizeT_ofNat (n : Nat) (h : n < SIZE_MOD) : sizeT (n : Int) = n := by
  unfold sizeT
  rw [Int.emod_eq_of_lt (by positivity) (by exact_mod_cast h)]
  simp

theorem sizeT_neg_one : sizeT (-1) = SIZE_MOD - 1 := by decide

theorem bufferSize_lt_sizeMod : BUFFER_SIZE < SIZE_MOD := by decide

theorem ssub_mod (a b : Nat) (hb : b ≤ a) (ha : a < SIZE_MOD) :
    (a + (SIZE_MOD - b)) % SIZE_MOD = a - b := by
  have h3 : a + (SIZE_MOD - b) = (a - b) + SIZE_MOD := by omega
  rw [h3, Nat.add_mod_right, Nat.mod_eq_of_lt (by omega)]

/-! ### Projection lemmas for the cycle phases -/

theorem srcHangupStep_buffer (s : PumpState) (a b : Bool) :
    (srcHangupStep s a b).buffer = s.buffer := by
  unfold srcHangupStep; split <;> rfl

theorem srcHangupStep_buffer_length (s : PumpState) (a b : Bool) :
    (srcHangupStep s a b).buffer_length = s.buffer_length := by
  unfold srcHangupStep; split <;> rfl

theorem srcHangupStep_buffer_offset (s : PumpState) (a b : Bool) :
    (srcHangupStep s a b).buffer_offset = s.buffer_offset := by
  unfold srcHangupStep; split <;> rfl

theorem srcHangupStep_keep_going (s : PumpState) (a b : Bool) :
    (srcHangupStep s a b).keep_going = s.keep_going := by
  unfold srcHangupStep; split <;> rfl

theorem srcHangupStep_dst_fd (s : PumpState) (a b : Bool) :
    (srcHangupStep s a b).dst_fd = s.dst_fd := by
  unfold srcHangupStep; split <;> rfl

theorem srcHangupStep_pending (s : PumpState) (a b : Bool) :
    pending (srcHangupStep s a b) = pending s := by
  unfold pending
  rw [srcHangupStep_buffer, srcHangupStep_buffer_length, srcHangupStep_buffer_offset]

theorem srcHangupStep_Inv (s : PumpState) (a b : Bool) (h : Inv s) :
    Inv (srcHangupStep s a b) := by
  unfold Inv at h ⊢
  rw [srcHangupStep_buffer, srcHangupStep_buffer_length, srcHangupStep_buffer_offset]
  exact h

theorem condStep_pending (s : PumpState) (a : Bool) :
    pending (condStep s a) = pending s := rfl

theorem condStep_Inv (s : PumpState) (a : Bool) (h : Inv s) : Inv (condStep s a) := h

/-! ### Homomorphism lemmas for the event extractors -/

theorem readBytesOf_append (l1 l2 : List IOEvent) :
    readBytesOf (l1 ++ l2) = readBytesOf l1 ++ readBytesOf l2 := by
  induction l1 with
  | nil => rfl
  | cons e es ih => cases e <;> simp [readBytesOf, ih]

theorem writtenBytesOf_append (l1 l2 : List IOEvent) :
    writtenBytesOf (l1 ++ l2) = writtenBytesOf l1 ++ writtenBytesOf l2 := by
  induction l1 with
  | nil => rfl
  | cons e es ih => cases e <;> simp [writtenBytesOf, ih]

theorem eotBytesOf_append (l1 l2 : List IOEvent) :
    eotBytesOf (l1 ++ l2) = eotBytesOf l1 + eotBytesOf l2 := by
  induction l1 with
  | nil => simp [eotBytesOf]
  | cons e es ih => cases e <;> simp [eotBytesOf, ih, Nat.add_assoc]

theorem readCallsOf_append (l1 l2 : List IOEvent) :
    readCallsOf (l1 ++ l2) = readCallsOf l1 + readCallsOf l2 := by
  induction l1 with
  | nil => simp [readCallsOf]
  | cons e es ih => cases e <;> simp [readCallsOf, ih, Nat.add_assoc]

theorem writtenBytesOf_fillEvents (s : PumpState) (i : Bool) (c : CycleInput) :
    writtenBytesOf (fillEvents s i c) = [] := by
  unfold fillEvents; split <;> rfl

theorem eotBytesOf_fillEvents (s : PumpState) (i : Bool) (c : CycleInput) :
    eotBytesOf (fillEvents s i c) = 0 := by
  unfold fillEvents; split <;> rfl

theorem readBytesOf_drainEvents (info : RedirectionInfo) (s : PumpState) (o : Bool)
    (c : CycleInput) : readBytesOf (drainEvents info s o c) = [] := by
  unfold drainEvents
  split
  · split
    · rfl
    · split
      · split
        · rfl
        · split <;> rfl
      · rfl
  · rfl

theorem readCallsOf_drainEvents (info : RedirectionInfo) (s : PumpState) (o : Bool)
    (c : CycleInput) : readCallsOf (drainEvents info s o c) = 0 := by
  unfold drainEvents
  split
  · split
    · rfl
    · split
      · split
        · rfl
        · split <;> rfl
      · rfl
  · rfl

/-! ### Per-phase stream lemmas -/

theorem fillStep_stream (s : PumpState) (srcIn : Bool) (c : CycleInput)
    (hr : c.read_err = false) (hinv : Inv s) :
    Inv (fillState s srcIn c) ∧
    pending (fillState s srcIn c) = pending s ++ readBytesOf (fillEvents s srcIn c) := by
  unfold fillState fillEvents
  by_cases hg : fillGuard s srcIn
  · have hlen : s.buffer_length = 0 := by
      unfold fillGuard at hg
      simp only [Bool.and_eq_true, beq_iff_eq] at hg
      exact hg.2
    have hpend : pending s = [] := by unfold pending; rw [hlen]; rfl
    have hchunk : (c.read_bytes.take BUFFER_SIZE).length ≤ BUFFER_SIZE := by
      rw [List.length_take]; exact min_le_left _ _
    have hsz : sizeT ((c.read_bytes.take BUFFER_SIZE).length : Int) =
        (c.read_bytes.take BUFFER_SIZE).length :=
      sizeT_ofNat _ (lt_of_le_of_lt hchunk bufferSize_lt_sizeMod)
    simp only [hg, if_true, hr, if_false, Bool.false_eq_true]
    constructor
    · split <;>
        simp_all [Inv, hsz]
    · split <;>
        simp_all [pending, readBytesOf, hsz, hpend, List.take_length]
  · simp [hg, readBytesOf]
    exact hinv

theorem drainStep_stream (info : RedirectionInfo) (s : PumpState) (dstOut : Bool)
    (c : CycleInput) (hw : c.write_err = false) (hfs : c.fsync_err = false)
    (he : c.eot_write_err = false) (hinv : Inv s) :
    ∃ s2, drainResult info s dstOut c = some s2 ∧ Inv s2 ∧
      s2.buffer = s.buffer ∧
      writtenBytesOf (drainEvents info s dstOut c) ++ pending s2 = pending s := by
  obtain ⟨hin, hbuf⟩ := hinv
  have hBS := bufferSize_lt_sizeMod
  by_cases ho : dstOut = true
  · by_cases hpos : 0 < s.buffer_length
    · have hn : min c.write_accept s.buffer_length ≤ s.buffer_length := min_le_right _ _
      have hszn : sizeT ((min c.write_accept s.buffer_length : Nat) : Int) =
          min c.write_accept s.buffer_length := sizeT_ofNat _ (by omega)
      have hoff : s.buffer_offset + min c.write_accept s.buffer_length < SIZE_MOD := by
        omega
      have hM : s.buffer_length < SIZE_MOD := by omega
      refine ⟨{ s with
          buffer_offset := s.buffer_offset + min c.write_accept s.buffer_length,
          buffer_length := s.buffer_length - min c.write_accept s.buffer_length },
        ?_, ?_, rfl, ?_⟩
      · simp only [drainResult, ho, if_true, hpos, hw, Bool.false_eq_true, if_false,
          hfs, hszn]
        rw [Nat.mod_eq_of_lt hoff, ssub_mod _ _ hn hM]
      · refine ⟨by simp; omega, by simpa using hbuf⟩
      · simp only [drainEvents, ho, if_true, hpos, hw, Bool.false_eq_true, if_false,
          hszn, writtenBytesOf, pending, List.append_nil]
        have hdd : (s.buffer.drop s.buffer_offset).drop
              (min c.write_accept s.buffer_length) =
            s.buffer.drop (s.buffer_offset + min c.write_accept s.buffer_length) :=
          List.drop_drop _ _ _
        rw [← hdd, ← List.take_add]
        congr 1
        omega
    · by_cases hef : s.found_eof = true
      · refine ⟨{ s with keep_going := false }, ?_, ⟨by simpa using hin, by simpa using hbuf⟩,
          rfl, ?_⟩
        · simp [drainResult, ho, hpos, hef, he, hfs]
        · simp only [drainEvents, ho, if_true, hpos, if_false, hef, he,
            Bool.false_eq_true]
          split <;> simp [writtenBytesOf, pending]
      · refine ⟨s, ?_, ⟨hin, hbuf⟩, rfl, ?_⟩
        · simp [drainResult, ho, hpos, hef]
        · simp [drainEvents, ho, hpos, hef, writtenBytesOf]
  · exact ⟨s, by simp [drainResult, ho], ⟨hin, hbuf⟩, rfl,
      by simp [drainEvents, ho, writtenBytesOf]⟩

theorem fillState_not_going (s : PumpState) (srcIn : Bool) (c : CycleInput)
    (h : s.keep_going = false) : fillState s srcIn c = s := by
  unfold fillState fillGuard
  simp [h]

theorem fillEvents_not_going (s : PumpState) (srcIn : Bool) (c : CycleInput)
    (h : s.keep_going = false) : fillEvents s srcIn c = [] := by
  unfold fillEvents fillGuard
  simp [h]

theorem drainStep_halted (info : RedirectionInfo) (s : PumpState) (dstOut : Bool)
    (c : CycleInput) (he : c.eot_write_err = false) (hf : c.fsync_err = false)
    (hkg : s.keep_going = false) (hlen : s.buffer_length = 0) :
    ∃ s2, drainResult info s dstOut c = some s2 ∧
      s2.keep_going = false ∧ s2.buffer_length = 0 ∧ s2.buffer = s.buffer ∧
      s2.buffer_offset = s.buffer_offset ∧
      writtenBytesOf (drainEvents info s dstOut c) = [] ∧
      readBytesOf (drainEvents info s dstOut c) = [] := by
  have hpos : ¬ 0 < s.buffer_length := by omega
  by_cases ho : dstOut = true
  · by_cases hef : s.found_eof = true
    · refine ⟨{ s with keep_going := false }, ?_, rfl, hlen, rfl, rfl, ?_, ?_⟩
      · simp [drainResult, ho, hpos, hef, he, hf]
      · simp only [drainEvents, ho, if_true, hpos, if_false, hef, he,
          Bool.false_eq_true]
        split <;> simp [writtenBytesOf]
      · simp only [drainEvents, ho, if_true, hpos, if_false, hef, he,
          Bool.false_eq_true]
        split <;> simp [readBytesOf]
    · exact ⟨s, by simp [drainResult, ho, hpos, hef], hkg, hlen, rfl, rfl,
        by simp [drainEvents, ho, hpos, hef, writtenBytesOf],
        by simp [drainEvents, ho, hpos, hef, readBytesOf]⟩
  · exact ⟨s, by simp [drainResult, ho], hkg, hlen, rfl, rfl,
      by simp [drainEvents, ho, writtenBytesOf],
      by simp [drainEvents, ho, readBytesOf]⟩

/-! ### Cycle-level lemmas -/

theorem pumpCycle_stream_nohup (info : RedirectionInfo) (s : PumpState) (c : CycleInput)
    (hg : GoodInput c) (hinv : Inv s)
    (hhup : (decide (0 ≤ s.dst_fd) && c.dst_pollhup) = false) :
    ∃ s2, (pumpCycle info s c).2 = some s2 ∧ Inv s2 ∧
      writtenBytesOf (pumpCycle info s c).1 ++ pending s2 =
        pending s ++ readBytesOf (pumpCycle info s c).1 := by
  obtain ⟨hp, hr, hw, he, hf⟩ := hg
  have hdst : dstHangupStep
      (srcHangupStep s (decide (0 ≤ s.src_fd) && c.src_pollhup)
        (decide (0 ≤ s.src_fd) && c.src_pollin))
      (decide (0 ≤ s.dst_fd) && c.dst_pollhup) =
      srcHangupStep s (decide (0 ≤ s.src_fd) && c.src_pollhup)
        (decide (0 ≤ s.src_fd) && c.src_pollin) := by
    rw [hhup]
    rfl
  simp only [pumpCycle, hp, Bool.false_eq_true, if_false, hdst]
  have hinv1 : Inv (srcHangupStep s (decide (0 ≤ s.src_fd) && c.src_pollhup)
      (decide (0 ≤ s.src_fd) && c.src_pollin)) := srcHangupStep_Inv s _ _ hinv
  have hpend1 : pending (srcHangupStep s (decide (0 ≤ s.src_fd) && c.src_pollhup)
      (decide (0 ≤ s.src_fd) && c.src_pollin)) = pending s := srcHangupStep_pending s _ _
  obtain ⟨hinv3, hpend3⟩ := fillStep_stream
    (srcHangupStep s (decide (0 ≤ s.src_fd) && c.src_pollhup)
      (decide (0 ≤ s.src_fd) && c.src_pollin))
    (decide (0 ≤ s.src_fd) && c.src_pollin) c hr hinv1
  obtain ⟨s2, hdr, hinv2, _hbuf2, hde⟩ := drainStep_stream info
    (fillState (srcHangupStep s (decide (0 ≤ s.src_fd) && c.src_pollhup)
        (decide (0 ≤ s.src_fd) && c.src_pollin))
      (decide (0 ≤ s.src_fd) && c.src_pollin) c)
    (decide (0 ≤ s.dst_fd) && c.dst_pollout) c hw hf he hinv3
  refine ⟨s2, hdr, hinv2, ?_⟩
  rw [writtenBytesOf_append, readBytesOf_append, writtenBytesOf_fillEvents,
    readBytesOf_drainEvents]
  simp only [List.nil_append, List.append_nil]
  rw [hde, hpend3, hpend1]

theorem pumpCycle_stream_hup (info : RedirectionInfo) (s : PumpState) (c : CycleInput)
    (hg : GoodInput c) (hinv : Inv s)
    (hhup : (decide (0 ≤ s.dst_fd) && c.dst_pollhup) = true) :
    ∃ s2, (pumpCycle info s c).2 = some s2 ∧ Inv s2 ∧
      s2.keep_going = false ∧ s2.buffer_length = 0 ∧ pending s2 = [] ∧
      writtenBytesOf (pumpCycle info s c).1 = [] ∧
      readBytesOf (pumpCycle info s c).1 = [] := by
  obtain ⟨hp, hr, hw, he, hf⟩ := hg
  have hdst : dstHangupStep
      (srcHangupStep s (decide (0 ≤ s.src_fd) && c.src_pollhup)
        (decide (0 ≤ s.src_fd) && c.src_pollin))
      (decide (0 ≤ s.dst_fd) && c.dst_pollhup) =
      { srcHangupStep s (decide (0 ≤ s.src_fd) && c.src_pollhup)
          (decide (0 ≤ s.src_fd) && c.src_pollin) with
        dst_fd := -1, keep_going := false, buffer_offset := 0, buffer_length := 0 } := by
    rw [hhup]
    rfl
  simp only [pumpCycle, hp, Bool.false_eq_true, if_false, hdst]
  rw [fillState_not_going _ _ _ rfl, fillEvents_not_going _ _ _ rfl]
  obtain ⟨s2, hdr, hkg2, hlen2, hbuf2, hoff2, hwr, hrd⟩ := drainStep_halted info
    { srcHangupStep s (decide (0 ≤ s.src_fd) && c.src_pollhup)
        (decide (0 ≤ s.src_fd) && c.src_pollin) with
      dst_fd := -1, keep_going := false, buffer_offset := 0, buffer_length := 0 }
    (decide (0 ≤ s.dst_fd) && c.dst_pollout) c he hf rfl rfl
  refine ⟨s2, hdr, ?_, hkg2, hlen2, ?_, ?_, ?_⟩
  · constructor
    · rw [hoff2, hlen2]
      simp
    · rw [hbuf2]
      have := hinv.2
      simpa [srcHangupStep_buffer] using this
  · unfold pending
    rw [hlen2]
    rfl
  · simpa using hwr
  · simpa using hrd

theorem condStep_eq_self (s : PumpState) (b : Bool) (h : s.keep_going = false) :
    condStep s b = s := by
  obtain ⟨kg, fe, sf, df, bu, bl, bo⟩ := s
  subst h
  rfl

theorem runPump_halt (info : RedirectionInfo) (s : PumpState)
    (h1 : s.keep_going = false) (h2 : s.buffer_length = 0) :
    ∀ cs, runPump info cs s = ([], some s) := by
  intro cs
  cases cs with
  | nil => rfl
  | cons c cs =>
    have hcond : loopContinue s c.all_done = false := by
      simp [loopContinue, h1, h2]
    simp only [runPump, hcond, Bool.false_eq_true, if_false,
      condStep_eq_self s c.all_done h1]

theorem runPump_stream (info : RedirectionInfo) :
    ∀ (trace : List CycleInput) (s : PumpState),
      (∀ c ∈ trace, GoodInput c) → Inv s →
      ∃ s2 t, (runPump info trace s).2 = some s2 ∧ Inv s2 ∧
        writtenBytesOf (runPump info trace s).1 ++ pending s2 ++ t =
          pending s ++ readBytesOf (runPump info trace s).1 ∧
        ((∀ c ∈ trace, c.dst_pollhup = false) → t = []) := by
  intro trace
  induction trace with
  | nil =>
    intro s _ hinv
    exact ⟨s, [], rfl, hinv,
      by simp [runPump, writtenBytesOf, readBytesOf], fun _ => rfl⟩
  | cons c cs ih =>
    intro s hg hinv
    have hgc : GoodInput c := hg c (List.mem_cons_self c cs)
    have hgcs : ∀ x ∈ cs, GoodInput x := fun x hx => hg x (List.mem_cons_of_mem c hx)
    by_cases hcond : loopContinue s c.all_done = true
    · have hinv1 : Inv (condStep s c.all_done) := hinv
      by_cases hhup :
          (decide (0 ≤ (condStep s c.all_done).dst_fd) && c.dst_pollhup) = true
      · obtain ⟨s2, hr1, hinv2, hkg2, hlen2, hpend2, hwr, hrd⟩ :=
          pumpCycle_stream_hup info (condStep s c.all_done) c hgc hinv1 hhup
        have hrest := runPump_halt info s2 hkg2 hlen2 cs
        refine ⟨s2, pending s, ?_, hinv2, ?_, ?_⟩
        · simp only [runPump, hcond, if_true, hr1, hrest]
        · simp only [runPump, hcond, if_true, hr1, hrest]
          rw [writtenBytesOf_append, readBytesOf_append]
          simp [hwr, hrd, hpend2, writtenBytesOf, readBytesOf, condStep_pending]
        · intro h
          have hc : c.dst_pollhup = true := ((Bool.and_eq_true _ _).mp hhup).2
          have := h c (List.mem_cons_self c cs)
          rw [this] at hc
          exact absurd hc (by simp)
      · obtain ⟨s2, hr1, hinv2, heq1⟩ :=
          pumpCycle_stream_nohup info (condStep s c.all_done) c hgc hinv1
            (by simpa using hhup)
        obtain ⟨s3, t, hr2, hinv3, heq2, ht⟩ := ih s2 hgcs hinv2
        refine ⟨s3, t, ?_, hinv3, ?_, ?_⟩
        · simp only [runPump, hcond, if_true, hr1, hr2]
        · simp only [runPump, hcond, if_true, hr1]
          rw [writtenBytesOf_append, readBytesOf_append]
          rw [condStep_pending] at heq1
          simp only [List.append_assoc]
          simp only [List.append_assoc] at heq2
          rw [heq2, ← List.append_assoc, heq1, List.append_assoc]
        · intro h
          exact ht fun x hx => h x (List.mem_cons_of_mem c hx)
    · refine ⟨condStep s c.all_done, [], ?_, hinv, ?_, fun _ => rfl⟩
      · simp only [runPump, hcond, Bool.false_eq_true, if_false]
      · simp only [runPump, hcond, Bool.false_eq_true, if_false]
        simp [writtenBytesOf, readBytesOf, condStep_pending]

theorem fillState_guard_false (s : PumpState) (srcIn : Bool) (c : CycleInput)
    (h : fillGuard s srcIn = false) : fillState s srcIn c = s := by
  unfold fillState
  simp [h]

theorem readCallsOf_fillEvents_guard (s : PumpState) (srcIn : Bool) (c : CycleInput)
    (h : fillGuard s srcIn = true) : readCallsOf (fillEvents s srcIn c) = 1 := by
  unfold fillEvents
  simp [h, readCallsOf]

theorem drainStep_offset (info : RedirectionInfo) (s : PumpState) (dstOut : Bool)
    (c : CycleInput) (hw : c.write_err = false) (hfs : c.fsync_err = false)
    (he : c.eot_write_err = false) (hinv : Inv s) :
    ∃ s2, drainResult info s dstOut c = some s2 ∧
      s.buffer_offset ≤ s2.buffer_offset := by
  obtain ⟨hin, hbuf⟩ := hinv
  have hBS := bufferSize_lt_sizeMod
  by_cases ho : dstOut = true
  · by_cases hpos : 0 < s.buffer_length
    · have hn : min c.write_accept s.buffer_length ≤ s.buffer_length := min_le_right _ _
      have hszn : sizeT ((min c.write_accept s.buffer_length : Nat) : Int) =
          min c.write_accept s.buffer_length := sizeT_ofNat _ (by omega)
      have hoff : s.buffer_offset + min c.write_accept s.buffer_length < SIZE_MOD := by
        omega
      have hM : s.buffer_length < SIZE_MOD := by omega
      refine ⟨{ s with
          buffer_offset := s.buffer_offset + min c.write_accept s.buffer_length,
          buffer_length := s.buffer_length - min c.write_accept s.buffer_length },
        ?_, ?_⟩
      · simp only [drainResult, ho, if_true, hpos, hw, Bool.false_eq_true, if_false,
          hfs, hszn]
        rw [Nat.mod_eq_of_lt hoff, ssub_mod _ _ hn hM]
      · simp
    · by_cases hef : s.found_eof = true
      · exact ⟨{ s with keep_going := false },
          by simp [drainResult, ho, hpos, hef, he, hfs], le_refl _⟩
      · exact ⟨s, by simp [drainResult, ho, hpos, hef], le_refl _⟩
  · exact ⟨s, by simp [drainResult, ho], le_refl _⟩

theorem pumpCycle_offset_mono (info : RedirectionInfo) (s : PumpState) (c : CycleInput)
    (hg : GoodInput c) (hinv : Inv s)
    (hhup : (decide (0 ≤ s.dst_fd) && c.dst_pollhup) = false)
    (hnoread : readCallsOf (pumpCycle info s c).1 = 0) :
    ∃ s2, (pumpCycle info s c).2 = some s2 ∧
      s.buffer_offset ≤ s2.buffer_offset := by
  obtain ⟨hp, hr, hw, he, hf⟩ := hg
  have hdst : dstHangupStep
      (srcHangupStep s (decide (0 ≤ s.src_fd) && c.src_pollhup)
        (decide (0 ≤ s.src_fd) && c.src_pollin))
      (decide (0 ≤ s.dst_fd) && c.dst_pollhup) =
      srcHangupStep s (decide (0 ≤ s.src_fd) && c.src_pollhup)
        (decide (0 ≤ s.src_fd) && c.src_pollin) := by
    rw [hhup]
    rfl
  simp only [pumpCycle, hp, Bool.false_eq_true, if_false, hdst] at hnoread ⊢
  rw [readCallsOf_append, readCallsOf_drainEvents] at hnoread
  have hguard : fillGuard
      (srcHangupStep s (decide (0 ≤ s.src_fd) && c.src_pollhup)
        (decide (0 ≤ s.src_fd) && c.src_pollin))
      (decide (0 ≤ s.src_fd) && c.src_pollin) = false := by
    by_contra hgt
    rw [readCallsOf_fillEvents_guard _ _ _ (by simpa using hgt)] at hnoread
    omega
  rw [fillState_guard_false _ _ _ hguard]
  obtain ⟨s2, hdr, hoff⟩ := drainStep_offset info
    (srcHangupStep s (decide (0 ≤ s.src_fd) && c.src_pollhup)
      (decide (0 ≤ s.src_fd) && c.src_pollin))
    (decide (0 ≤ s.dst_fd) && c.dst_pollout) c hw hf he (srcHangupStep_Inv s _ _ hinv)
  rw [srcHangupStep_buffer_offset] at hoff
  exact ⟨s2, hdr, hoff⟩

/-! ### Concrete inputs for evaluations -/

/-- A cycle input on which nothing is reported and nothing fails. -/
def quietCycle : CycleInput :=
  { all_done := false, poll_err := false, src_pollin := false, src_pollhup := false,
    dst_pollout := false, dst_pollhup := false, read_err := false, read_bytes := [],
    write_err := false, write_accept := 0, eot_write_err := false, fsync_err := false,
    dst_is_terminal := false }

/-- A pump configuration used for concrete evaluations. -/
def demoInfo : RedirectionInfo :=
  { id := 0, in_fd := 0, out_fd := 1, send_eot := true, end_all := false }

/-- A cycle on which the source is readable and delivers the bytes `[10, 20]`. -/
def fillCycle : CycleInput :=
  { quietCycle with src_pollin := true, read_bytes := [10, 20] }

/-- A cycle on which the destination is writable and accepts one byte. -/
def drainCycle : CycleInput :=
  { quietCycle with dst_pollout := true, write_accept := 1 }

/-- The pump state reached from `initPump demoInfo` by a `fillCycle` (which
reads `[10, 20]`) followed by a `drainCycle` (which writes one byte): one
byte has been consumed, one remains. -/
def partialDrainState : PumpState :=
  { keep_going := true, found_eof := false, src_fd := 0, dst_fd := 1,
    buffer := [10, 20], buffer_length := 1, buffer_offset := 1 }

/-! ### Claim theorems -/

/-- C1: on any error-free schedule, the bytes a pump hands to its destination
`write` calls are an initial segment of the bytes its `read` calls obtained
from the source (same order, no gaps, no duplication); when no destination
hang-up is reported and the buffer ends empty they are exactly the bytes
read; and a cycle that performs no `read` (and sees no destination hang-up)
never moves the buffer offset backwards, so no byte is consumed twice. -/
theorem pump_preserves_stream (info : RedirectionInfo) (trace : List CycleInput)
    (hg : ∀ c ∈ trace, GoodInput c) :
    (∃ t, writtenBytesOf (runPump info trace (initPump info)).1 ++ t =
        readBytesOf (runPump info trace (initPump info)).1) ∧
    (∀ s2, (runPump info trace (initPump info)).2 = some s2 →
      (∀ c ∈ trace, c.dst_pollhup = false) → s2.buffer_length = 0 →
      writtenBytesOf (runPump info trace (initPump info)).1 =
        readBytesOf (runPump info trace (initPump info)).1) ∧
    (∀ s c, GoodInput c → Inv s →
      (decide (0 ≤ s.dst_fd) && c.dst_pollhup) = false →
      readCallsOf (pumpCycle info s c).1 = 0 →
      ∃ s2, (pumpCycle info s c).2 = some s2 ∧
        s.buffer_offset ≤ s2.buffer_offset) := by
  have hinv0 : Inv (initPump info) := by
    constructor
    · simp [initPump]
    · simp [initPump, BUFFER_SIZE]
  obtain ⟨s2, t, hr, _hinv, heq, ht⟩ := runPump_stream info trace (initPump info) hg hinv0
  have hpend0 : pending (initPump info) = [] := rfl
  rw [hpend0, List.nil_append] at heq
  refine ⟨⟨pending s2 ++ t, by rw [← List.append_assoc]; exact heq⟩, ?_, ?_⟩
  · intro s2' hr2 hnohup hlen
    rw [hr] at hr2
    have hs : s2' = s2 := (Option.some.inj hr2).symm
    subst hs
    have hpend2 : pending s2' = [] := by
      unfold pending
      rw [hlen]
      rfl
    rw [ht hnohup, hpend2, List.append_nil, List.append_nil] at heq
    exact heq
  · intro s c hgc hinvc hhup hnr
    exact pumpCycle_offset_mono info s c hgc hinvc hhup hnr

theorem pump_preserves_stream_witness :
    ∃ t, writtenBytesOf (runPump demoInfo [fillCycle, drainCycle]
        (initPump demoInfo)).1 ++ t =
      readBytesOf (runPump demoInfo [fillCycle, drainCycle] (initPump demoInfo)).1 :=
  (pump_preserves_stream demoInfo [fillCycle, drainCycle] (by
    intro c hc
    fin_cases hc <;> exact ⟨rfl, rfl, rfl, rfl, rfl⟩)).1

/-- C4, counterexample: after reading two bytes and draining one, the
reachable state `partialDrainState` has one pending byte still to be
written, while `buffer_length - buffer_offset = 0`: the number of bytes
remaining to be written is not `length − offset`. -/
theorem buffer_invariant_cex :
    (runPump demoInfo [fillCycle, drainCycle] (initPump demoInfo)).2 =
      some partialDrainState ∧
    (pending partialDrainState).length = 1 ∧
    partialDrainState.buffer_length - partialDrainState.buffer_offset = 0 := by
  refine ⟨?_, ?_, ?_⟩ <;> decide

/-- C4, amended: on every error-free schedule, every reachable pump state
satisfies the invariant that `buffer_length` bytes (stored at offsets
`buffer_offset ..< buffer_offset + buffer_length` of the chunk) remain to be
written before another read may occur, and `buffer_offset + buffer_length`
never exceeds the stored chunk's length, which never exceeds the buffer
capacity `BUFFER_SIZE`; every fill and drain step preserves this. -/
theorem buffer_invariant_amended (info : RedirectionInfo) (trace : List CycleInput)
    (s2 : PumpState) (hg : ∀ c ∈ trace, GoodInput c)
    (hrun : (runPump info trace (initPump info)).2 = some s2) :
    s2.buffer_offset + s2.buffer_length ≤ s2.buffer.length ∧
    s2.buffer.length ≤ BUFFER_SIZE ∧
    (pending s2).length = s2.buffer_length := by
  have hinv0 : Inv (initPump info) := by
    constructor
    · simp [initPump]
    · simp [initPump, BUFFER_SIZE]
  obtain ⟨s2', _t, hr, hinv, _, _⟩ := runPump_stream info trace (initPump info) hg hinv0
  rw [hrun] at hr
  obtain rfl := Option.some.inj hr
  obtain ⟨hin, hbuf⟩ := hinv
  refine ⟨hin, hbuf, ?_⟩
  unfold pending
  rw [List.length_take, List.length_drop]
  omega

theorem buffer_invariant_amended_witness :
    partialDrainState.buffer_offset + partialDrainState.buffer_length ≤
      partialDrainState.buffer.length ∧
    partialDrainState.buffer.length ≤ BUFFER_SIZE ∧
    (pending partialDrainState).length = partialDrainState.buffer_length :=
  buffer_invariant_amended demoInfo [fillCycle, drainCycle] partialDrainState
    (by
      intro c hc
      fin_cases hc <;> exact ⟨rfl, rfl, rfl, rfl, rfl⟩)
    (by decide)

/-- C3, evaluation of the code at the failing input: a `read` failure
(return value `-1`) during a fill is NOT fatal — the return value is stored
into the unsigned `size_t` variable `n_read`, so the `ASSERT_NONNEG` check
`n_read >= 0` is vacuously true — and the converted error value becomes
`buffer_length = 2^64 - 1`, i.e. the error is silently treated as pending
data.  A `poll` failure on the same state, by contrast, is fatal as the
claim requires. -/
theorem read_error_treated_as_data :
    pumpCycle demoInfo (initPump demoInfo)
        { quietCycle with src_pollin := true, read_err := true } =
      ([IOEvent.readCall (-1) []],
       some { initPump demoInfo with buffer_length := SIZE_MOD - 1 }) ∧
    SIZE_MOD - 1 ≠ 0 ∧
    pumpCycle demoInfo (initPump demoInfo) { quietCycle with poll_err := true } =
      ([], none) := by
  refine ⟨?_, ?_, ?_⟩ <;> decide

theorem dstHangupStep_false (s : PumpState) : dstHangupStep s false = s := rfl

theorem srcHangupStep_srcIn_true (s : PumpState) (a : Bool) :
    srcHangupStep s a true = s := by
  unfold srcHangupStep
  simp

theorem fillEvents_guard_false (s : PumpState) (srcIn : Bool) (c : CycleInput)
    (h : fillGuard s srcIn = false) : fillEvents s srcIn c = [] := by
  unfold fillEvents
  simp [h]

theorem drainResult_good_some (info : RedirectionInfo) (s : PumpState) (dstOut : Bool)
    (c : CycleInput) (he : c.eot_write_err = false) (hf : c.fsync_err = false) :
    ∃ s2, drainResult info s dstOut c = some s2 := by
  simp only [drainResult]
  repeat' split
  all_goals first
    | exact ⟨_, rfl⟩
    | simp_all

theorem drainResult_some_preserves (info : RedirectionInfo) (s : PumpState)
    (dstOut : Bool) (c : CycleInput) :
    ∀ s2, drainResult info s dstOut c = some s2 →
      s2.found_eof = s.found_eof ∧ s2.src_fd = s.src_fd := by
  intro s2 h
  simp only [drainResult] at h
  repeat' split at h
  all_goals first
    | (obtain rfl := Option.some.inj h
       exact ⟨rfl, rfl⟩)
    | exact absurd h (by simp)

/-- C5: when a pump observes hang-up on its live destination (`POLLOUT` being
absent, as POSIX makes `POLLHUP` and `POLLOUT` mutually exclusive), the
cycle retires the destination descriptor, discards the buffered-but-unsent
bytes, clears `keep_going`, performs no write of any kind, and every
subsequent loop iteration exits immediately without further events. -/
theorem dst_hangup_discards_and_halts (info : RedirectionInfo) (s : PumpState)
    (c : CycleInput) (hg : GoodInput c) (hfd : 0 ≤ s.dst_fd)
    (hhup : c.dst_pollhup = true) (hout : c.dst_pollout = false) :
    ∃ evts s2, pumpCycle info s c = (evts, some s2) ∧
      s2.dst_fd = -1 ∧ s2.keep_going = false ∧
      s2.buffer_length = 0 ∧ s2.buffer_offset = 0 ∧
      writtenBytesOf evts = [] ∧ eotBytesOf evts = 0 ∧
      ∀ cs, runPump info cs s2 = ([], some s2) := by
  obtain ⟨hp, _hr, _hw, _he, _hf⟩ := hg
  have hd : decide (0 ≤ s.dst_fd) = true := by simpa using hfd
  have hpc : pumpCycle info s c =
      ([], some { srcHangupStep s (decide (0 ≤ s.src_fd) && c.src_pollhup)
          (decide (0 ≤ s.src_fd) && c.src_pollin) with
        dst_fd := -1, keep_going := false, buffer_offset := 0, buffer_length := 0 }) := by
    simp only [pumpCycle, hp, Bool.false_eq_true, if_false, hd, hhup, hout,
      Bool.and_self, Bool.and_false, Bool.true_and, dstHangupStep, if_true,
      fillState, fillEvents, fillGuard, Bool.false_and, drainResult, drainEvents,
      List.nil_append]
  exact ⟨[], _, hpc, rfl, rfl, rfl, rfl, rfl, rfl, runPump_halt info _ rfl rfl⟩

/-- C6: a pump treats end of input as a modelled, non-fatal condition: a
hang-up on the live source with no readable data retires the source and sets
`found_eof`, and so does a zero-length read on a readable source; in both
cases the cycle completes normally (no fatal assertion). -/
theorem source_eof_modeled (info : RedirectionInfo) (s : PumpState) (c : CycleInput)
    (hg : GoodInput c) :
    ((0 ≤ s.src_fd) → c.src_pollhup = true → c.src_pollin = false →
      ∃ s2, (pumpCycle info s c).2 = some s2 ∧
        s2.found_eof = true ∧ s2.src_fd = -1) ∧
    (s.keep_going = true → s.found_eof = false → s.buffer_length = 0 →
      (0 ≤ s.src_fd) → c.src_pollin = true → c.read_bytes = [] →
      c.dst_pollhup = false →
      ∃ s2, (pumpCycle info s c).2 = some s2 ∧
        s2.found_eof = true ∧ s2.src_fd = -1) := by
  obtain ⟨hp, hr, _hw, he, hf⟩ := hg
  constructor
  · intro hfd hhup hin
    have hd : decide (0 ≤ s.src_fd) = true := by simpa using hfd
    have hsrc : srcHangupStep s (decide (0 ≤ s.src_fd) && c.src_pollhup)
        (decide (0 ≤ s.src_fd) && c.src_pollin) =
        { s with src_fd := -1, found_eof := true } := by
      unfold srcHangupStep
      simp [hd, hhup, hin]
    simp only [pumpCycle, hp, Bool.false_eq_true, if_false, hsrc]
    -- the destination hang-up and fill phases preserve found_eof and src_fd
    by_cases hdh : (decide (0 ≤ s.dst_fd) && c.dst_pollhup) = true
    · rw [hdh]
      have hdst2 : dstHangupStep { s with src_fd := -1, found_eof := true } true =
          { s with
              src_fd := -1, found_eof := true, dst_fd := -1,
              keep_going := false, buffer_offset := 0, buffer_length := 0 } := rfl
      rw [hdst2, fillState_not_going _ _ _ rfl]
      obtain ⟨s2, hdr⟩ := drainResult_good_some info
        { s with
            src_fd := -1, found_eof := true, dst_fd := -1,
            keep_going := false, buffer_offset := 0, buffer_length := 0 }
        (decide (0 ≤ s.dst_fd) && c.dst_pollout) c he hf
      obtain ⟨hfe, hsf⟩ := drainResult_some_preserves info _ _ c s2 hdr
      exact ⟨s2, hdr, by rw [hfe], by rw [hsf]⟩
    · have hdh2 : (decide (0 ≤ s.dst_fd) && c.dst_pollhup) = false := by
        simpa using hdh
      rw [hdh2, dstHangupStep_false]
      have hfill : fillState { s with src_fd := -1, found_eof := true }
          (decide (0 ≤ s.src_fd) && c.src_pollin) c =
          { s with src_fd := -1, found_eof := true } := by
        apply fillState_guard_false
        unfold fillGuard
        simp
      rw [hfill]
      obtain ⟨s2, hdr⟩ := drainResult_good_some info
        { s with src_fd := -1, found_eof := true }
        (decide (0 ≤ s.dst_fd) && c.dst_pollout) c he hf
      obtain ⟨hfe, hsf⟩ := drainResult_some_preserves info _ _ c s2 hdr
      exact ⟨s2, hdr, by rw [hfe], by rw [hsf]⟩
  · intro hkg hne hlen hfd hin hrb hdhup
    have hd : decide (0 ≤ s.src_fd) = true := by simpa using hfd
    have hsrcin : (decide (0 ≤ s.src_fd) && c.src_pollin) = true := by
      rw [hd, hin]
      rfl
    have hdh2 : (decide (0 ≤ s.dst_fd) && c.dst_pollhup) = false := by
      rw [hdhup, Bool.and_false]
    have hguard : fillGuard s true = true := by
      unfold fillGuard
      rw [hkg, hne, hlen]
      rfl
    have hfill : fillState s true c =
        { s with
            buffer := [], buffer_offset := 0, buffer_length := 0,
            src_fd := -1, found_eof := true } := by
      unfold fillState
      rw [if_pos hguard, hrb]
      simp [hr, sizeT, SIZE_MOD]
    simp only [pumpCycle, hp, Bool.false_eq_true, if_false, hsrcin,
      srcHangupStep_srcIn_true, hdh2, dstHangupStep_false, hfill]
    obtain ⟨s2, hdr⟩ := drainResult_good_some info
      { s with
          buffer := [], buffer_offset := 0, buffer_length := 0,
          src_fd := -1, found_eof := true }
      (decide (0 ≤ s.dst_fd) && c.dst_pollout) c he hf
    obtain ⟨hfe, hsf⟩ := drainResult_some_preserves info _ _ c s2 hdr
    exact ⟨s2, hdr, by rw [hfe], by rw [hsf]⟩

/-- C9: a pump performs a `read` only when the loop is live, the source has
not reached EOF, the source descriptor is live and reported readable, and
the transfer buffer is empty — in particular never while unsent bytes
remain. -/
theorem fill_requires_empty_buffer (info : RedirectionInfo) (s : PumpState)
    (c : CycleInput) (hread : readCallsOf (pumpCycle info s c).1 ≠ 0) :
    s.buffer_length = 0 ∧ s.found_eof = false ∧ s.keep_going = true ∧
    0 ≤ s.src_fd ∧ c.src_pollin = true := by
  by_cases hp : c.poll_err = true
  · exfalso
    apply hread
    simp [pumpCycle, hp, readCallsOf]
  · have hp2 : c.poll_err = false := by simpa using hp
    simp only [pumpCycle, hp2, Bool.false_eq_true, if_false] at hread
    rw [readCallsOf_append, readCallsOf_drainEvents] at hread
    have hguard : fillGuard
        (dstHangupStep
          (srcHangupStep s (decide (0 ≤ s.src_fd) && c.src_pollhup)
            (decide (0 ≤ s.src_fd) && c.src_pollin))
          (decide (0 ≤ s.dst_fd) && c.dst_pollhup))
        (decide (0 ≤ s.src_fd) && c.src_pollin) = true := by
      by_contra hng
      rw [fillEvents_guard_false _ _ _ (by simpa using hng)] at hread
      exact hread rfl
    have hsrcin : (decide (0 ≤ s.src_fd) && c.src_pollin) = true := by
      unfold fillGuard at hguard
      have := (Bool.and_eq_true _ _).mp hguard
      exact ((Bool.and_eq_true _ _).mp this.1).2
    rw [hsrcin, srcHangupStep_srcIn_true] at hguard
    have hdh : (decide (0 ≤ s.dst_fd) && c.dst_pollhup) = false := by
      by_contra hdt
      have hdt2 : (decide (0 ≤ s.dst_fd) && c.dst_pollhup) = true := by
        simpa using hdt
      rw [hdt2] at hguard
      unfold dstHangupStep fillGuard at hguard
      simp at hguard
    rw [hdh, dstHangupStep_false] at hguard
    unfold fillGuard at hguard
    obtain ⟨⟨⟨hkg, hne⟩, _⟩, hlen⟩ :=
      (Bool.and_eq_true _ _).mp hguard |>.imp
        (fun h => (Bool.and_eq_true _ _).mp h |>.imp
          (fun h2 => (Bool.and_eq_true _ _).mp h2) id) id
    obtain ⟨hfd, hin⟩ := (Bool.and_eq_true _ _).mp hsrcin
    refine ⟨by simpa using hlen, by simpa using hne, hkg, of_decide_eq_true hfd, hin⟩

/-- A cycle input reporting hang-up on the destination. -/
def hangupCycle : CycleInput := { quietCycle with dst_pollhup := true }

/-- A cycle input reporting hang-up on the source with nothing to read. -/
def srcHangupCycle : CycleInput := { quietCycle with src_pollhup := true }

/-- A cycle input on which the source is readable but `read` returns zero
bytes. -/
def emptyReadCycle : CycleInput := { quietCycle with src_pollin := true }

theorem dst_hangup_discards_and_halts_witness :
    ∃ evts s2, pumpCycle demoInfo partialDrainState hangupCycle = (evts, some s2) ∧
      s2.dst_fd = -1 ∧ s2.keep_going = false ∧
      s2.buffer_length = 0 ∧ s2.buffer_offset = 0 ∧
      writtenBytesOf evts = [] ∧ eotBytesOf evts = 0 ∧
      ∀ cs, runPump demoInfo cs s2 = ([], some s2) :=
  dst_hangup_discards_and_halts demoInfo partialDrainState hangupCycle
    ⟨rfl, rfl, rfl, rfl, rfl⟩ (by decide) rfl rfl

theorem source_eof_modeled_witness :
    (∃ s2, (pumpCycle demoInfo (initPump demoInfo) srcHangupCycle).2 = some s2 ∧
      s2.found_eof = true ∧ s2.src_fd = -1) ∧
    (∃ s2, (pumpCycle demoInfo (initPump demoInfo) emptyReadCycle).2 = some s2 ∧
      s2.found_eof = true ∧ s2.src_fd = -1) :=
  ⟨(source_eof_modeled demoInfo (initPump demoInfo) srcHangupCycle
      ⟨rfl, rfl, rfl, rfl, rfl⟩).1 (by decide) rfl rfl,
   (source_eof_modeled demoInfo (initPump demoInfo) emptyReadCycle
      ⟨rfl, rfl, rfl, rfl, rfl⟩).2 rfl rfl rfl (by decide) rfl rfl rfl⟩

theorem fill_requires_empty_buffer_witness :
    (initPump demoInfo).buffer_length = 0 ∧ (initPump demoInfo).found_eof = false ∧
    (initPump demoInfo).keep_going = true ∧ 0 ≤ (initPump demoInfo).src_fd ∧
    fillCycle.src_pollin = true :=
  fill_requires_empty_buffer demoInfo (initPump demoInfo) fillCycle (by decide)

/-! ### The end-of-transmission discipline -/

theorem srcHangupStep_found_eof_true (s : PumpState) (a b : Bool)
    (h : s.found_eof = true) : (srcHangupStep s a b).found_eof = true := by
  unfold srcHangupStep
  split
  · rfl
  · exact h

theorem drainStep_eot (info : RedirectionInfo) (s : PumpState) (dstOut : Bool)
    (c : CycleInput) :
    eotBytesOf (drainEvents info s dstOut c) ≤ 1 ∧
    (∀ s2, drainResult info s dstOut c = some s2 →
      1 ≤ eotBytesOf (drainEvents info s dstOut c) →
      s2.keep_going = false ∧ s2.buffer_length = 0) := by
  constructor
  · unfold drainEvents
    repeat' split
    all_goals simp [eotBytesOf]
  · intro s2 h hcnt
    by_cases ho : dstOut = true
    · by_cases hpos : 0 < s.buffer_length
      · exfalso
        unfold drainEvents at hcnt
        simp [ho, hpos, eotBytesOf] at hcnt
      · by_cases hef : s.found_eof = true
        · have hkg : s2.keep_going = false ∧ s2.buffer_length = 0 → True := fun _ => trivial
          unfold drainResult at h
          simp only [ho, if_true, hpos, if_false, hef] at h
          split at h
          · exact absurd h (by simp)
          · split at h
            · exact absurd h (by simp)
            · obtain rfl := Option.some.inj h
              exact ⟨rfl, (by omega : s.buffer_length = 0)⟩
        · exfalso
          unfold drainEvents at hcnt
          simp [ho, hpos, hef, eotBytesOf] at hcnt
    · exfalso
      unfold drainEvents at hcnt
      simp [ho, eotBytesOf] at hcnt

theorem pumpCycle_eot (info : RedirectionInfo) (s : PumpState) (c : CycleInput) :
    eotBytesOf (pumpCycle info s c).1 ≤ 1 ∧
    (∀ s2, (pumpCycle info s c).2 = some s2 →
      1 ≤ eotBytesOf (pumpCycle info s c).1 →
      s2.keep_going = false ∧ s2.buffer_length = 0) := by
  by_cases hp : c.poll_err = true
  · constructor
    · simp [pumpCycle, hp, eotBytesOf]
    · intro s2 h
      simp [pumpCycle, hp] at h
  · have hp2 : c.poll_err = false := by simpa using hp
    simp only [pumpCycle, hp2, Bool.false_eq_true, if_false]
    rw [eotBytesOf_append, eotBytesOf_fillEvents]
    simp only [Nat.zero_add]
    exact drainStep_eot info _ _ c

theorem runPump_eot_le_one (info : RedirectionInfo) :
    ∀ (trace : List CycleInput) (s : PumpState),
      eotBytesOf (runPump info trace s).1 ≤ 1 := by
  intro trace
  induction trace with
  | nil =>
    intro s
    simp [runPump, eotBytesOf]
  | cons c cs ih =>
    intro s
    by_cases hcond : loopContinue s c.all_done = true
    · rcases hres : (pumpCycle info (condStep s c.all_done) c).2 with _ | s2
      · simp only [runPump, hcond, if_true, hres]
        exact (pumpCycle_eot info _ c).1
      · simp only [runPump, hcond, if_true, hres]
        rw [eotBytesOf_append]
        by_cases hz : eotBytesOf (pumpCycle info (condStep s c.all_done) c).1 = 0
        · rw [hz]
          simpa using ih s2
        · obtain ⟨hkg, hlen⟩ :=
            (pumpCycle_eot info (condStep s c.all_done) c).2 s2 hres (by omega)
          rw [runPump_halt info s2 hkg hlen cs]
          have h1 := (pumpCycle_eot info (condStep s c.all_done) c).1
          simp only [eotBytesOf]
          omega
    · simp [runPump, hcond, eotBytesOf]

/-- C7: in the EOF-pending state with an empty buffer and a writable, live
destination (no simultaneous hang-up), a cycle performs exactly one
EOT-branch write, whose payload is the single end-of-transmission byte if
and only if the pump is configured to send EOT and the destination is
terminal-like, and a zero-length write otherwise; the pump then stops for
good.  Moreover no pump run ever delivers more than one EOT byte. -/
theorem eot_once (info : RedirectionInfo) (s : PumpState) (c : CycleInput)
    (hg : GoodInput c) (heof : s.found_eof = true) (hlen : s.buffer_length = 0)
    (hfd : 0 ≤ s.dst_fd) (hout : c.dst_pollout = true) (hhup : c.dst_pollhup = false) :
    (∃ s2, pumpCycle info s c =
        ([IOEvent.eotWrite
            (if info.send_eot && c.dst_is_terminal then [EOT_CHAR] else [])],
          some s2) ∧
      s2.keep_going = false ∧ s2.buffer_length = 0 ∧
      ∀ cs, runPump info cs s2 = ([], some s2)) ∧
    (∀ trace s0, eotBytesOf (runPump info trace s0).1 ≤ 1) := by
  obtain ⟨hp, hr, hw, he, hf⟩ := hg
  refine ⟨?_, fun trace s0 => runPump_eot_le_one info trace s0⟩
  have hd : decide (0 ≤ s.dst_fd) = true := by simpa using hfd
  have hdh2 : (decide (0 ≤ s.dst_fd) && c.dst_pollhup) = false := by
    rw [hhup, Bool.and_false]
  have hdo : (decide (0 ≤ s.dst_fd) && c.dst_pollout) = true := by
    rw [hd, hout]
    rfl
  have hfe1 : (srcHangupStep s (decide (0 ≤ s.src_fd) && c.src_pollhup)
      (decide (0 ≤ s.src_fd) && c.src_pollin)).found_eof = true :=
    srcHangupStep_found_eof_true s _ _ heof
  have hlen1 : (srcHangupStep s (decide (0 ≤ s.src_fd) && c.src_pollhup)
      (decide (0 ≤ s.src_fd) && c.src_pollin)).buffer_length = 0 := by
    rw [srcHangupStep_buffer_length]
    exact hlen
  have hguard : fillGuard (srcHangupStep s (decide (0 ≤ s.src_fd) && c.src_pollhup)
      (decide (0 ≤ s.src_fd) && c.src_pollin))
      (decide (0 ≤ s.src_fd) && c.src_pollin) = false := by
    unfold fillGuard
    rw [hfe1]
    simp
  have hnpos : ¬ 0 < (srcHangupStep s (decide (0 ≤ s.src_fd) && c.src_pollhup)
      (decide (0 ≤ s.src_fd) && c.src_pollin)).buffer_length := by
    rw [hlen1]
    omega
  simp only [pumpCycle, hp, Bool.false_eq_true, if_false, hdh2, dstHangupStep_false,
    fillState_guard_false _ _ _ hguard, fillEvents_guard_false _ _ _ hguard, hdo]
  unfold drainEvents drainResult
  simp only [if_true, hnpos, if_false, hfe1, he, hf, Bool.false_eq_true,
    List.nil_append]
  by_cases hterm : (info.send_eot && c.dst_is_terminal) = true
  · simp only [hterm, if_true]
    refine ⟨_, rfl, rfl, hlen1, runPump_halt info _ rfl hlen1⟩
  · have hterm2 : (info.send_eot && c.dst_is_terminal) = false := by
      simpa using hterm
    simp only [hterm2, Bool.false_eq_true, if_false]
    refine ⟨_, rfl, rfl, hlen1, runPump_halt info _ rfl hlen1⟩

/-- The EOF-pending state used for concrete evaluations. -/
def eofPendingState : PumpState :=
  { keep_going := true, found_eof := true, src_fd := -1, dst_fd := 1,
    buffer := [], buffer_length := 0, buffer_offset := 0 }

/-- A cycle input on which the terminal-like destination is writable. -/
def eotCycle : CycleInput :=
  { quietCycle with dst_pollout := true, dst_is_terminal := true }

theorem eot_once_witness :
    ∃ s2, pumpCycle demoInfo eofPendingState eotCycle =
        ([IOEvent.eotWrite [EOT_CHAR]], some s2) ∧ s2.keep_going = false := by
  obtain ⟨⟨s2, hpc, hkg, _, _⟩, _⟩ :=
    eot_once demoInfo eofPendingState eotCycle ⟨rfl, rfl, rfl, rfl, rfl⟩ rfl rfl
      (by decide) rfl rfl
  refine ⟨s2, ?_, hkg⟩
  simpa [demoInfo, eotCycle, quietCycle] using hpc

/-! ### Two-thread session model for the shared termination flag -/

/-- The process-wide state shared by the two pump threads: the static
`volatile int all_done` flag of `redirection_thread_fn` (initially zero),
each thread's private pump state, and per thread a flag recording that its
loop has exited and its tail code has run. -/
structure SessionState where
  all_done : Bool
  pump0 : PumpState
  pump1 : PumpState
  done0 : Bool
  done1 : Bool
deriving Repr, DecidableEq

/-- Lines 268-273: after its loop exits, a thread stores `all_done = 1`
exactly when its `end_all` flag is set. -/
def applyEndAll (g : SessionState) (f : Bool) : SessionState :=
  if f then { g with all_done := true } else g

/-- A scheduler choice: which pump thread runs next, with the cycle input
its `poll`/`read`/`write` calls observe. -/
inductive Sched where
  | step0 (c : CycleInput)
  | step1 (c : CycleInput)
deriving Repr, DecidableEq

/-- One scheduling step of the session: the chosen thread, if not yet
finished, evaluates its loop condition against the shared flag and either
runs one cycle (`none` = a fatal assertion killing the whole process) or
exits its loop and runs its tail code (line 268), which is the only code
that can set the shared flag. -/
def sessionStep (info0 info1 : RedirectionInfo) (g : SessionState) :
    Sched → Option SessionState
  | Sched.step0 c =>
    if g.done0 then some g
    else if loopContinue g.pump0 g.all_done then
      match (pumpCycle info0 (condStep g.pump0 g.all_done) c).2 with
      | none => none
      | some s2 => some { g with pump0 := s2 }
    else
      some (applyEndAll
        { g with pump0 := condStep g.pump0 g.all_done, done0 := true }
        info0.end_all)
  | Sched.step1 c =>
    if g.done1 then some g
    else if loopContinue g.pump1 g.all_done then
      match (pumpCycle info1 (condStep g.pump1 g.all_done) c).2 with
      | none => none
      | some s2 => some { g with pump1 := s2 }
    else
      some (applyEndAll
        { g with pump1 := condStep g.pump1 g.all_done, done1 := true }
        info1.end_all)

/-- Interleaved execution of the two pump threads under a schedule. -/
def sessionRun (info0 info1 : RedirectionInfo) :
    SessionState → List Sched → Option SessionState
  | g, [] => some g
  | g, a :: as =>
    match sessionStep info0 info1 g a with
    | none => none
    | some g2 => sessionRun info0 info1 g2 as

/-- The session state right after `main` launches the two threads: flag
clear, both pumps in their initial state. -/
def initSession (fdm : Int) : SessionState :=
  { all_done := false, pump0 := initPump (reader_info fdm),
    pump1 := initPump (writer_info fdm), done0 := false, done1 := false }

theorem sessionStep_flag_writer (fdm : Int) (g : SessionState) (a : Sched)
    (hg : g.all_done = true → g.done1 = true) :
    ∀ g2, sessionStep (reader_info fdm) (writer_info fdm) g a = some g2 →
      (g2.all_done = true → g2.done1 = true) := by
  intro g2 h
  cases a with
  | step0 c =>
    simp only [sessionStep] at h
    split at h
    · obtain rfl := Option.some.inj h
      exact hg
    · split at h
      · split at h
        · exact absurd h (by simp)
        · obtain rfl := Option.some.inj h
          intro ha
          exact hg ha
      · obtain rfl := Option.some.inj h
        intro ha
        simp only [applyEndAll, reader_info] at ha ⊢
        simp at ha ⊢
        exact hg ha
  | step1 c =>
    simp only [sessionStep] at h
    split at h
    · obtain rfl := Option.some.inj h
      exact hg
    · rename_i hd1
      split at h
      · split at h
        · exact absurd h (by simp)
        · obtain rfl := Option.some.inj h
          intro ha
          exact absurd (hg ha) hd1
      · obtain rfl := Option.some.inj h
        intro _
        simp [applyEndAll, writer_info]

theorem sessionRun_flag_writer (fdm : Int) :
    ∀ (steps : List Sched) (g : SessionState),
      (g.all_done = true → g.done1 = true) →
      ∀ g2, sessionRun (reader_info fdm) (writer_info fdm) g steps = some g2 →
        (g2.all_done = true → g2.done1 = true) := by
  intro steps
  induction steps with
  | nil =>
    intro g hg g2 h
    obtain rfl := Option.some.inj h
    exact hg
  | cons a as ih =>
    intro g hg g2 h
    simp only [sessionRun] at h
    rcases hs : sessionStep (reader_info fdm) (writer_info fdm) g a with _ | g1
    · rw [hs] at h
      exact absurd h (by simp)
    · rw [hs] at h
      exact ih g1 (sessionStep_flag_writer fdm g a hg g1 hs) g2 h

/-- C8: the shared termination flag starts clear; along every schedule of
the two pump threads as `main` configures them (reader `end_all = 0`,
writer `end_all = 1`), a set flag implies the writer pump has finished —
no other code sets it; the store `all_done = 1` is idempotent; the flag is
consulted by the loop condition on every cycle, so with the flag set a
pump's loop condition fails as soon as its buffer is empty; and the sibling
pump then finishes on its very next scheduling step without performing any
I/O. -/
theorem termination_flag_protocol (fdm : Int) :
    ((initSession fdm).all_done = false) ∧
    (∀ steps g2, sessionRun (reader_info fdm) (writer_info fdm)
        (initSession fdm) steps = some g2 →
      (g2.all_done = true → g2.done1 = true)) ∧
    (∀ (g : SessionState) (f : Bool),
      applyEndAll (applyEndAll g f) f = applyEndAll g f) ∧
    (∀ s : PumpState, s.buffer_length = 0 → loopContinue s true = false) ∧
    (∀ (g : SessionState) (c : CycleInput), g.done0 = false →
      g.all_done = true → g.pump0.buffer_length = 0 →
      sessionStep (reader_info fdm) (writer_info fdm) g (Sched.step0 c) =
        some (applyEndAll
          { g with pump0 := condStep g.pump0 g.all_done, done0 := true }
          (reader_info fdm).end_all)) := by
  refine ⟨rfl, ?_, ?_, ?_, ?_⟩
  · intro steps g2 h
    exact sessionRun_flag_writer fdm steps (initSession fdm) (by simp [initSession])
      g2 h
  · intro g f
    cases f <;> simp [applyEndAll]
  · intro s hlen
    simp [loopContinue, hlen]
  · intro g c hd0 ha hlen
    have hcond : loopContinue g.pump0 g.all_done = false := by
      rw [ha]
      simp [loopContinue, hlen]
    simp only [sessionStep, hd0, Bool.false_eq_true, if_false, hcond]

theorem termination_flag_protocol_witness :
    ((initSession 3).all_done = false) ∧
    (loopContinue (initPump (reader_info 3)) true = false) := by
  obtain ⟨h1, _, _, h4, _⟩ := termination_flag_protocol 3
  exact ⟨h1, h4 _ rfl⟩

/-! ### The setup and exit-status logic of `main` -/

/-- How `waitpid` observed the child process to terminate. -/
inductive ChildStatus where
  | exited (code : Nat)
  | signaled (sig : Nat)
deriving Repr, DecidableEq

/-- The results of the system calls `main` performs on the parent path, in
program order. -/
structure SetupOracle where
  openpt_fd : Int
  grantpt_ret : Int
  unlockpt_ret : Int
  slave_fd : Int
  fork_ret : Int
  close_slave_ret : Int
  waitpid_ret : Int
  child_status : ChildStatus
  close_master_ret : Int
deriving Repr, DecidableEq

/-- The externally visible milestones of `main`'s setup sequence. -/
inductive MainEvent where
  | openedPty
  | granted
  | unlocked
  | openedSlave
  | forked
deriving Repr, DecidableEq

/-- The outcome of `main` on the parent path.  `fatal` is an assertion
failure: the diagnostic is the fixed message for the argument check and an
`errno`-derived `perror` line (abstracted as `none`) for system calls, and
the process exits with the recorded status (`EXIT_FAILURE` in the
`my_assert` macros).  `exit` is a normal return from `main` with the given
status.  `childPath` marks the branch taken by the forked child, which
replaces its image via `exec` and is outside this model. -/
inductive MainOutcome where
  | fatal (diagnostic : Option String) (status : Nat)
  | exit (status : Nat)
  | childPath
deriving Repr, DecidableEq

/-- All five setup milestones, in the order `main` performs them. -/
def fullSetupEvents : List MainEvent :=
  [MainEvent.openedPty, MainEvent.granted, MainEvent.unlocked,
   MainEvent.openedSlave, MainEvent.forked]

/-- `main` on the parent path: the `argc > 1` assertion, the PTY setup
sequence (`posix_openpt`, `grantpt`, `unlockpt`, `open` of the slave),
`fork`, then in the parent `close(fds)`, `waitpid`, the exit-status capture
(`exitstatus` starts at `EXIT_FAILURE` and is overwritten only when
`WIFEXITED(status)` holds), `close(fdm)`, and the final return.  Each
assertion failure aborts with a diagnostic and `EXIT_FAILURE`. -/
def mainRun (argc : Nat) (o : SetupOracle) : List MainEvent × MainOutcome :=
  if argc ≤ 1 then
    ([], MainOutcome.fatal (some "Insufficient command line arguments") EXIT_FAILURE)
  else if o.openpt_fd < 0 then
    ([MainEvent.openedPty], MainOutcome.fatal none EXIT_FAILURE)
  else if o.grantpt_ret ≠ 0 then
    ([MainEvent.openedPty, MainEvent.granted], MainOutcome.fatal none EXIT_FAILURE)
  else if o.unlockpt_ret ≠ 0 then
    ([MainEvent.openedPty, MainEvent.granted, MainEvent.unlocked],
     MainOutcome.fatal none EXIT_FAILURE)
  else if o.slave_fd < 0 then
    ([MainEvent.openedPty, MainEvent.granted, MainEvent.unlocked,
      MainEvent.openedSlave],
     MainOutcome.fatal none EXIT_FAILURE)
  else if o.fork_ret < 0 then
    (fullSetupEvents, MainOutcome.fatal none EXIT_FAILURE)
  else if o.fork_ret = 0 then
    (fullSetupEvents, MainOutcome.childPath)
  else if o.close_slave_ret ≠ 0 then
    (fullSetupEvents, MainOutcome.fatal none EXIT_FAILURE)
  else if o.waitpid_ret < 0 then
    (fullSetupEvents, MainOutcome.fatal none EXIT_FAILURE)
  else if o.close_master_ret ≠ 0 then
    (fullSetupEvents, MainOutcome.fatal none EXIT_FAILURE)
  else
    (fullSetupEvents,
     MainOutcome.exit (match o.child_status with
       | ChildStatus.exited code => code
       | ChildStatus.signaled _ => EXIT_FAILURE))

/-- All system calls on the parent path succeed. -/
def goodSetup (o : SetupOracle) : Prop :=
  0 ≤ o.openpt_fd ∧ o.grantpt_ret = 0 ∧ o.unlockpt_ret = 0 ∧ 0 ≤ o.slave_fd ∧
  0 < o.fork_ret ∧ o.close_slave_ret = 0 ∧ 0 ≤ o.waitpid_ret ∧
  o.close_master_ret = 0

/-- C2: with successful setup, a normally exiting child makes the program's
exit status the child's own exit status; a signal-killed child yields the
fallback `EXIT_FAILURE`; and a failure of any setup step — PTY allocation
(`posix_openpt`), permission grant (`grantpt`), unlock (`unlockpt`), the
slave `open`, `fork`, the parent's `close` of the slave, `waitpid`, or the
final `close` of the master — aborts the program with `EXIT_FAILURE`. -/
theorem main_exit_status_contract (argc : Nat) (o : SetupOracle) (h : 1 < argc) :
    (∀ code, goodSetup o → o.child_status = ChildStatus.exited code →
      (mainRun argc o).2 = MainOutcome.exit code) ∧
    (∀ sig, goodSetup o → o.child_status = ChildStatus.signaled sig →
      (mainRun argc o).2 = MainOutcome.exit EXIT_FAILURE) ∧
    (o.openpt_fd < 0 →
      (mainRun argc o).2 = MainOutcome.fatal none EXIT_FAILURE) ∧
    (0 ≤ o.openpt_fd → o.grantpt_ret ≠ 0 →
      (mainRun argc o).2 = MainOutcome.fatal none EXIT_FAILURE) ∧
    (0 ≤ o.openpt_fd → o.grantpt_ret = 0 → o.unlockpt_ret ≠ 0 →
      (mainRun argc o).2 = MainOutcome.fatal none EXIT_FAILURE) ∧
    (0 ≤ o.openpt_fd → o.grantpt_ret = 0 → o.unlockpt_ret = 0 → o.slave_fd < 0 →
      (mainRun argc o).2 = MainOutcome.fatal none EXIT_FAILURE) ∧
    (0 ≤ o.openpt_fd → o.grantpt_ret = 0 → o.unlockpt_ret = 0 → 0 ≤ o.slave_fd →
      o.fork_ret < 0 →
      (mainRun argc o).2 = MainOutcome.fatal none EXIT_FAILURE) ∧
    (0 ≤ o.openpt_fd → o.grantpt_ret = 0 → o.unlockpt_ret = 0 → 0 ≤ o.slave_fd →
      0 < o.fork_ret → o.close_slave_ret ≠ 0 →
      (mainRun argc o).2 = MainOutcome.fatal none EXIT_FAILURE) ∧
    (0 ≤ o.openpt_fd → o.grantpt_ret = 0 → o.unlockpt_ret = 0 → 0 ≤ o.slave_fd →
      0 < o.fork_ret → o.close_slave_ret = 0 → o.waitpid_ret < 0 →
      (mainRun argc o).2 = MainOutcome.fatal none EXIT_FAILURE) ∧
    (0 ≤ o.openpt_fd → o.grantpt_ret = 0 → o.unlockpt_ret = 0 → 0 ≤ o.slave_fd →
      0 < o.fork_ret → o.close_slave_ret = 0 → 0 ≤ o.waitpid_ret →
      o.close_master_ret ≠ 0 →
      (mainRun argc o).2 = MainOutcome.fatal none EXIT_FAILURE) := by
  have hargc : ¬ argc ≤ 1 := by omega
  refine ⟨?_, ?_, ?_, ?_, ?_, ?_, ?_, ?_, ?_, ?_⟩
  · intro code hgs hcs
    obtain ⟨h1, h2, h3, h4, h5, h6, h7, h8⟩ := hgs
    simp only [mainRun]
    rw [if_neg hargc, if_neg (by omega), if_neg (by simp [h2]), if_neg (by simp [h3]),
      if_neg (by omega), if_neg (by omega), if_neg (by omega), if_neg (by simp [h6]),
      if_neg (by omega), if_neg (by simp [h8])]
    simp [hcs]
  · intro sig hgs hcs
    obtain ⟨h1, h2, h3, h4, h5, h6, h7, h8⟩ := hgs
    simp only [mainRun]
    rw [if_neg hargc, if_neg (by omega), if_neg (by simp [h2]), if_neg (by simp [h3]),
      if_neg (by omega), if_neg (by omega), if_neg (by omega), if_neg (by simp [h6]),
      if_neg (by omega), if_neg (by simp [h8])]
    simp [hcs]
  · intro hopen
    simp only [mainRun]
    rw [if_neg hargc, if_pos hopen]
  · intro h1 h2
    simp only [mainRun]
    rw [if_neg hargc, if_neg (by omega), if_pos h2]
  · intro h1 h2 h3
    simp only [mainRun]
    rw [if_neg hargc, if_neg (by omega), if_neg (by simp [h2]), if_pos h3]
  · intro h1 h2 h3 h4
    simp only [mainRun]
    rw [if_neg hargc, if_neg (by omega), if_neg (by simp [h2]), if_neg (by simp [h3]),
      if_pos h4]
  · intro h1 h2 h3 h4 h5
    simp only [mainRun]
    rw [if_neg hargc, if_neg (by omega), if_neg (by simp [h2]), if_neg (by simp [h3]),
      if_neg (by omega), if_pos h5]
  · intro h1 h2 h3 h4 h5 h6
    simp only [mainRun]
    rw [if_neg hargc, if_neg (by omega), if_neg (by simp [h2]), if_neg (by simp [h3]),
      if_neg (by omega), if_neg (by omega), if_neg (by omega), if_pos h6]
  · intro h1 h2 h3 h4 h5 h6 h7
    simp only [mainRun]
    rw [if_neg hargc, if_neg (by omega), if_neg (by simp [h2]), if_neg (by simp [h3]),
      if_neg (by omega), if_neg (by omega), if_neg (by omega), if_neg (by simp [h6]),
      if_pos h7]
  · intro h1 h2 h3 h4 h5 h6 h7 h8
    simp only [mainRun]
    rw [if_neg hargc, if_neg (by omega), if_neg (by simp [h2]), if_neg (by simp [h3]),
      if_neg (by omega), if_neg (by omega), if_neg (by omega), if_neg (by simp [h6]),
      if_neg (by omega), if_pos h8]

/-- A parent-path oracle on which everything succeeds and the child exits
with status 7. -/
def demoOracle : SetupOracle :=
  { openpt_fd := 3, grantpt_ret := 0, unlockpt_ret := 0, slave_fd := 4,
    fork_ret := 42, close_slave_ret := 0, waitpid_ret := 42,
    child_status := ChildStatus.exited 7, close_master_ret := 0 }

theorem main_exit_status_contract_witness :
    (mainRun 2 demoOracle).2 = MainOutcome.exit 7 ∧
    (mainRun 2 { demoOracle with grantpt_ret := -1 }).2 =
      MainOutcome.fatal none EXIT_FAILURE :=
  ⟨(main_exit_status_contract 2 demoOracle (by omega)).1 7
      ⟨by decide, rfl, rfl, by decide, by decide, rfl, by decide, rfl⟩ rfl,
   (main_exit_status_contract 2 { demoOracle with grantpt_ret := -1 }
      (by omega)).2.2.2.1 (by decide) (by decide)⟩

/-- C10: invoked with argument count not greater than one, the program
prints the diagnostic `"Insufficient command line arguments"` and exits
with `EXIT_FAILURE` before any PTY allocation or fork is attempted (the
event list is empty), regardless of what the system calls would have
returned. -/
theorem insufficient_args_fatal (argc : Nat) (o : SetupOracle) (h : argc ≤ 1) :
    mainRun argc o =
      ([], MainOutcome.fatal (some "Insufficient command line arguments")
        EXIT_FAILURE) := by
  simp [mainRun, h]

theorem insufficient_args_fatal_witness :
    mainRun 1 demoOracle =
      ([], MainOutcome.fatal (some "Insufficient command line arguments")
        EXIT_FAILURE) :=
  insufficient_args_fatal 1 demoOracle (by omega)

end Terminator
